import Mathlib

/-!
Verification development for a source-position and diagnostic-context library.

The Rust source is shallowly embedded: strings are modelled as lists of
bytes (`List Nat`, each entry the value of one UTF-8 code unit), paths as
lists of components (each a byte list), and every operation that can panic
in Rust is modelled as an `Option`- or `Except`-valued function where
`none` marks the panic.  The filesystem is an external collaborator and is
passed in explicitly: a read function `Path → Option (List Nat)` (with
`none` marking an I/O failure) and a directory walk given as the list of
results the walker yields.
-/

set_option maxRecDepth 4000

namespace SrcCtx

/-- Byte list of an ASCII string literal (used for concrete test data; all
concrete contents used below are ASCII, where code units and scalar values
coincide). -/
def bytes (s : String) : List Nat := s.data.map Char.toNat

/-- A filesystem path, modelled as its list of components (as produced by
`Path::components`), each component a byte string. -/
abbrev FsPath := List (List Nat)

/-- Model of `SourceIndex`: an identifier for a specific source in a `SourceMap`,
a pair of the owning map's internal id and the slot number. -/
structure SourceIndex where
  map_id : Nat
  data_index : Nat
deriving DecidableEq, Repr

/-- Model of `Offset`: a position in a `SourceMap` entry. -/
structure Offset where
  source_index : SourceIndex
  byte : Nat
deriving DecidableEq, Repr

/-- Model of `Span`: a span of content in a `SourceMap` entry (start offset plus
byte length). -/
structure Span where
  offset : Offset
  byte_len : Nat
deriving DecidableEq, Repr

/-- Model of `Offset::is_at_start`. -/
def Offset.is_at_start (o : Offset) : Bool := o.byte == 0

/-- Model of `Offset::span`: construct a `Span` from one offset to another.  The Rust
code asserts that both offsets come from the same source (panic modelled as
`none`) and swaps the two byte positions when the second lies before the
first. -/
def Offset.span (self other : Offset) : Option Span :=
  if self.source_index = other.source_index then
    let a := self.byte
    let b := other.byte
    let a' := if b < a then b else a
    let b' := if b < a then a else b
    some { offset := { source_index := self.source_index, byte := a' }, byte_len := b' - a' }
  else
    none

/-- Model of `Span::source_index`. -/
def Span.source_index (s : Span) : SourceIndex := s.offset.source_index

/-- Model of `Span::start`. -/
def Span.start (s : Span) : Offset := s.offset

/-- Model of `Span::end`: the offset at the end of the span, computed as start plus
length (named `end'` because `end` is a Lean keyword). -/
def Span.end' (s : Span) : Offset :=
  { source_index := s.offset.source_index, byte := s.offset.byte + s.byte_len }

/-- Model of `Span::byte_range`: the half-open byte range `[start, start + len)`. -/
def Span.byte_range (s : Span) : Nat × Nat := (s.offset.byte, s.offset.byte + s.byte_len)

/-- A byte in the range `0x80..0xBF`, i.e. a UTF-8 continuation byte. -/
def isContinuationByte (b : Nat) : Bool := 128 ≤ b && b < 192

/-- Rust's `str::is_char_boundary` on the byte-list model: `true` at 0, at
the end of the list, and at any byte that is not a continuation byte;
`false` past the end.  String slicing panics exactly at positions where
this is `false`. -/
def is_char_boundary (l : List Nat) (i : Nat) : Bool :=
  i == 0 ||
    (match l.get? i with
     | some b => !(isContinuationByte b)
     | none => i == l.length)

/-- Model of `Input`: an input traversal wrapper for contents in a `SourceMap`:
source identifier, remaining content and current byte position. -/
structure Input where
  source_index : SourceIndex
  content : List Nat
  byte : Nat
deriving DecidableEq, Repr

/-- Model of `Input::len`. -/
def Input.len (inp : Input) : Nat := inp.content.length

/-- Model of `Input::is_empty`. -/
def Input.is_empty (inp : Input) : Bool := inp.content.isEmpty

/-- Model of `Input::offset`: the `Offset` corresponding to the current position. -/
def Input.offset (inp : Input) : Offset :=
  { source_index := inp.source_index, byte := inp.byte }

/-- Model of `Input::skip`: skip a number of bytes.  The slice `&content[n..]`
panics (modelled as `none`) when `n` is not a character boundary of the
remaining content. -/
def Input.skip (inp : Input) (byte_len : Nat) : Option Input :=
  if is_char_boundary inp.content byte_len then
    some { source_index := inp.source_index
           content := inp.content.drop byte_len
           byte := inp.byte + byte_len }
  else
    none

/-- Model of `Input::truncate`: truncate the remaining content to a byte length.
The slice `&content[..n]` panics (modelled as `none`) when `n` is not a
character boundary. -/
def Input.truncate (inp : Input) (byte_len : Nat) : Option Input :=
  if is_char_boundary inp.content byte_len then
    some { source_index := inp.source_index
           content := inp.content.take byte_len
           byte := inp.byte }
  else
    none

/-- Model of `Input::split`: split the input into the truncated and the skipped
part at a byte position. -/
def Input.split (inp : Input) (byte_len : Nat) : Option (Input × Input) :=
  match inp.truncate byte_len, inp.skip byte_len with
  | some t, some s => some (t, s)
  | _, _ => none

/-- Model of `Origin`: the origin of a `SourceMap` entry — a file path or a name. -/
inductive Origin where
  | File (path : FsPath)
  | Named (name : List Nat)
deriving DecidableEq, Repr

/-- One `SourceMap` entry: an origin together with its content. -/
structure SourceData where
  origin : Origin
  content : List Nat
deriving DecidableEq, Repr

/-- Model of `SourceMap`: internal id, the `Origin → slot` lookup table (the Rust
`HashMap` is modelled as an association list) and the slot data. -/
structure SourceMap where
  id : Nat
  origin_indices : List (Origin × Nat)
  data : List SourceData
deriving DecidableEq, Repr

/-- Model of `SourceMap::new`: construct an empty map.  The process-unique internal
id drawn from the atomic counter is supplied as a parameter here. -/
def SourceMap.new (id : Nat) : SourceMap :=
  { id := id, origin_indices := [], data := [] }

/-- Lookup in the `Origin → slot` table (model of `HashMap::get`). -/
def assocLookup (l : List (Origin × Nat)) (o : Origin) : Option Nat :=
  (l.find? (fun p => decide (p.1 = o))).map (fun p => p.2)

/-- Model of `SourceMap::contains`: does a `SourceIndex` belong to this map? -/
def SourceMap.contains (m : SourceMap) (idx : SourceIndex) : Bool :=
  m.id == idx.map_id

/-- Model of `SourceMap::origin`: panics (modelled as `none`) when the index does
not belong to this map or the slot is out of range. -/
def SourceMap.origin (m : SourceMap) (idx : SourceIndex) : Option Origin :=
  if m.id = idx.map_id then
    (m.data.get? idx.data_index).map SourceData.origin
  else
    none

/-- Model of `SourceMap::content`: panics (modelled as `none`) when the index does
not belong to this map or the slot is out of range. -/
def SourceMap.content (m : SourceMap) (idx : SourceIndex) : Option (List Nat) :=
  if m.id = idx.map_id then
    (m.data.get? idx.data_index).map SourceData.content
  else
    none

/-- Model of `SourceMap::input`: construct an `Input` for a map entry; same panic
conditions as `content`. -/
def SourceMap.input (m : SourceMap) (idx : SourceIndex) : Option Input :=
  if m.id = idx.map_id then
    (m.data.get? idx.data_index).map
      (fun d => { source_index := idx, content := d.content, byte := 0 })
  else
    none

/-- Model of `SourceMap::origin_index`: find the index for a given origin. -/
def SourceMap.origin_index (m : SourceMap) (origin : Origin) : Option SourceIndex :=
  (assocLookup m.origin_indices origin).map
    (fun index => { map_id := m.id, data_index := index })

/-- Does an origin designate the given file path? (the comparison made by
`SourceMap::file_index` while scanning the table). -/
def originIsFile (path : FsPath) : Origin → Bool
  | .File f => decide (f = path)
  | .Named _ => false

/-- Model of `SourceMap::file_index`: find the index registered for a file path. -/
def SourceMap.file_index (m : SourceMap) (path : FsPath) : Option SourceIndex :=
  (m.origin_indices.find? (fun p => originIsFile path p.1)).map
    (fun p => { map_id := m.id, data_index := p.2 })

/-- Model of `SourceMap::contains_file`. -/
def SourceMap.contains_file (m : SourceMap) (path : FsPath) : Bool :=
  (m.data.map SourceData.origin).any (originIsFile path)

instance {ε α : Type} [DecidableEq ε] [DecidableEq α] : DecidableEq (Except ε α) :=
  fun a b =>
  match a, b with
  | .ok x, .ok y =>
    if h : x = y then isTrue (h ▸ rfl) else isFalse (fun hc => h (Except.ok.inj hc))
  | .error x, .error y =>
    if h : x = y then isTrue (h ▸ rfl) else isFalse (fun hc => h (Except.error.inj hc))
  | .ok _, .error _ => isFalse (fun hc => Except.noConfusion hc)
  | .error _, .ok _ => isFalse (fun hc => Except.noConfusion hc)

/-- Model of `Insert`: the outcome of an insertion into a `SourceMap`. -/
inductive Insert where
  | Inserted (idx : SourceIndex)
  | Previous (idx : SourceIndex)
deriving DecidableEq, Repr

/-- Model of `Insert::try_into_inserted`. -/
def Insert.try_into_inserted : Insert → Except SourceIndex SourceIndex
  | .Inserted idx => .ok idx
  | .Previous idx => .error idx

/-- Model of `SourceMap::insert`: register content under an origin if that origin is
absent, otherwise return the existing slot.  Returns the updated map
together with the outcome (the Rust method mutates `self`). -/
def SourceMap.insert (m : SourceMap) (origin : Origin) (content : List Nat) :
    SourceMap × Insert :=
  match assocLookup m.origin_indices origin with
  | some prev_index => (m, .Previous { map_id := m.id, data_index := prev_index })
  | none =>
    let index := m.data.length
    ({ m with
        origin_indices := (origin, index) :: m.origin_indices
        data := m.data ++ [({ origin := origin, content := content } : SourceData)] },
     .Inserted { map_id := m.id, data_index := index })

/-- Model of `ReadError` (private helper error of `SourceMap::read_file`); the
`std::io::Error` payload is dropped since it is opaque external data. -/
inductive ReadError where
  | Previous (idx : SourceIndex)
  | Read (file : FsPath)
deriving DecidableEq, Repr

/-- Model of `LoadError`: errors of `load_file` / `load_directory`, with the opaque
external error payloads dropped. -/
inductive LoadError where
  | Find (root : FsPath) (extension : List Nat)
  | Read (file : FsPath)
deriving DecidableEq, Repr

/-- Model of `SourceMap::read_file`: report an already-registered path as
`Previous`, otherwise read the file through the filesystem collaborator
`readFs` (`none` = I/O failure). -/
def SourceMap.read_file (m : SourceMap) (readFs : FsPath → Option (List Nat))
    (path : FsPath) : Except ReadError (List Nat) :=
  match m.file_index path with
  | some prev_index => .error (.Previous prev_index)
  | none =>
    match readFs path with
    | some content => .ok content
    | none => .error (.Read path)

/-- Model of `SourceMap::load_file`.  The outer `Option` is the panic of the
`try_into_inserted().unwrap()` call; the result pairs the updated map with
the load outcome. -/
def SourceMap.load_file (m : SourceMap) (readFs : FsPath → Option (List Nat))
    (path : FsPath) : Option (SourceMap × Except LoadError Insert) :=
  match m.read_file readFs path with
  | .error (.Previous idx) => some (m, .ok (.Previous idx))
  | .error (.Read file) => some (m, .error (.Read file))
  | .ok content =>
    match m.insert (.File path) content with
    | (m', .Inserted idx) => some (m', .ok (.Inserted idx))
    | (_, .Previous _) => none

/-- One entry yielded by the external directory walker. -/
structure DirEntry where
  path : FsPath
  isFile : Bool
deriving DecidableEq, Repr

/-- Rust's `Path::ends_with`: the candidate's components must be a suffix
of the path's components (whole components are compared, not string
suffixes). -/
def pathEndsWith (p child : FsPath) : Bool := child.isSuffixOf p

/-- Split a byte list at every occurrence of a separator byte (model of
`str::split` restricted to a one-byte pattern; also used to build the
component list of a path given as a string). -/
def splitByte (sep : Nat) : List Nat → List (List Nat)
  | [] => [[]]
  | b :: rest =>
    if b = sep then [] :: splitByte sep rest
    else
      match splitByte sep rest with
      | [] => [[b]]
      | h :: t => (b :: h) :: t

/-- The components of `Path::new(s)` for a string `s` (split at `/`,
`0x2F`); the empty string has no components. -/
def strToPath (s : List Nat) : FsPath :=
  if s = [] then [] else splitByte 47 s

/-- The string-suffix test the specification describes for
`load_directory`'s extension filter (a plain byte-suffix match on the
path rendered as a string); stated separately so it can be compared with
the component-wise `pathEndsWith` the code actually performs. -/
def specStringSuffix (path : FsPath) (extension : List Nat) : Bool :=
  extension.isSuffixOf (List.intercalate (bytes "/") path)

/-- Phase 1 of `SourceMap::load_directory`: walk the enumeration, filter
by `is_file` and `Path::ends_with(extension)`, and read every matching
file, aborting on the first traversal or read failure.  No map insertions
happen in this phase; already-registered files are recorded by index. -/
def SourceMap.collectLoads (m : SourceMap) (readFs : FsPath → Option (List Nat))
    (root : FsPath) (extension : List Nat) :
    List (Except Unit DirEntry) →
      Except LoadError (List (Except SourceIndex (Origin × List Nat)))
  | [] => .ok []
  | .error _ :: _ => .error (.Find root extension)
  | .ok entry :: rest =>
    if entry.isFile && pathEndsWith entry.path (strToPath extension) then
      match m.read_file readFs entry.path with
      | .ok content =>
        match m.collectLoads readFs root extension rest with
        | .ok opens => .ok (.ok (.File entry.path, content) :: opens)
        | .error e => .error e
      | .error (.Previous idx) =>
        match m.collectLoads readFs root extension rest with
        | .ok opens => .ok (.error idx :: opens)
        | .error e => .error e
      | .error (.Read file) => .error (.Read file)
    else
      m.collectLoads readFs root extension rest

/-- Phase 2 of `SourceMap::load_directory`: perform the collected
insertions in order.  The outer `Option` is the panic of the
`try_into_inserted().unwrap()` call. -/
def SourceMap.insertOpens (m : SourceMap) :
    List (Except SourceIndex (Origin × List Nat)) → Option (SourceMap × List Insert)
  | [] => some (m, [])
  | .ok (origin, content) :: rest =>
    match m.insert origin content with
    | (m', .Inserted idx) =>
      match m'.insertOpens rest with
      | some (m'', outs) => some (m'', .Inserted idx :: outs)
      | none => none
    | (_, .Previous _) => none
  | .error idx :: rest =>
    match m.insertOpens rest with
    | some (m'', outs) => some (m'', .Previous idx :: outs)
    | none => none

/-- Model of `SourceMap::load_directory`: all reads first (`collectLoads`), then all
insertions (`insertOpens`).  The walk enumeration is the externally
provided traversal result list. -/
def SourceMap.load_directory (m : SourceMap) (readFs : FsPath → Option (List Nat))
    (walk : List (Except Unit DirEntry)) (root : FsPath) (extension : List Nat) :
    Option (SourceMap × Except LoadError (List Insert)) :=
  match m.collectLoads readFs root extension walk with
  | .error e => some (m, .error e)
  | .ok opens =>
    match m.insertOpens opens with
    | some (m', outs) => some (m', .ok outs)
    | none => none

/-- Index of the first `\n` (byte 10) in a byte list (model of
`str::find('\n')`). -/
def findNl : List Nat → Option Nat
  | [] => none
  | b :: rest => if b = 10 then some 0 else (findNl rest).map (· + 1)

/-- Index of the last `\n` (byte 10) in a byte list (model of
`str::rfind('\n')`). -/
def rfindNl : List Nat → Option Nat
  | [] => none
  | b :: rest =>
    match rfindNl rest with
    | some i => some (i + 1)
    | none => if b = 10 then some 0 else none

/-- Model of `SourceMap::line_span`: the span of the line enclosing an offset — from
the byte after the last `\n` before the position (or 0) to the first `\n`
at or after it (or the end of the content).  `none` models the panics of
the index lookup and of slicing at a non-boundary position. -/
def SourceMap.line_span (m : SourceMap) (offset : Offset) : Option Span :=
  match m.content offset.source_index with
  | none => none
  | some content =>
    if is_char_boundary content offset.byte then
      let start :=
        match rfindNl (content.take offset.byte) with
        | some b => b + 1
        | none => 0
      let stop :=
        match findNl (content.drop offset.byte) with
        | some b => b + offset.byte
        | none => content.length
      some { offset := { source_index := offset.source_index, byte := start }
             byte_len := stop - start }
    else
      none

/-- Model of `SourceMap::byte_offset_on_line`. -/
def SourceMap.byte_offset_on_line (m : SourceMap) (offset : Offset) : Option Nat :=
  (m.line_span offset).map (fun line => offset.byte - line.start.byte)

/-- Model of `ContextErrorLocation`: one extracted line of source with its 1-based
line and column numbers. -/
structure ContextErrorLocation where
  line_number : Nat
  column_number : Nat
  line : List Nat
deriving DecidableEq, Repr

/-- Model of `SourceMap::context_error_location`: resolve an offset to its enclosing
line, line number (`content[..byte].split('\n').count()`) and 1-based byte
column. -/
def SourceMap.context_error_location (m : SourceMap) (offset : Offset) :
    Option ContextErrorLocation :=
  match m.line_span offset, m.content offset.source_index with
  | some line, some content =>
    let start := line.start.byte
    let stop := line.end'.byte
    let line_number := (splitByte 10 (content.take offset.byte)).length
    let column_number := 1 + (offset.byte - start)
    some { line_number := line_number
           column_number := column_number
           line := (content.drop start).take (stop - start) }
  | _, _ => none

/-- Model of `ContextErrorOrigin`: origin, note and resolved location(s) of one
diagnostic position. -/
structure ContextErrorOrigin where
  origin : Origin
  note : List Nat
  location : ContextErrorLocation
  context : Option ContextErrorLocation
deriving DecidableEq, Repr

/-- Model of `SourceMap::context_error_origin`: resolve the primary (and optional
context) offset and package them with the entry's origin. -/
def SourceMap.context_error_origin (m : SourceMap) (offset : Offset)
    (note : List Nat) (context : Option Offset) : Option ContextErrorOrigin :=
  match m.context_error_location offset with
  | none => none
  | some location =>
    match context with
    | none =>
      match m.origin offset.source_index with
      | some origin => some { origin := origin, note := note, location := location,
                              context := none }
      | none => none
    | some ctx_offset =>
      match m.context_error_location ctx_offset with
      | none => none
      | some ctx_location =>
        match m.origin offset.source_index with
        | some origin => some { origin := origin, note := note, location := location,
                                context := some ctx_location }
        | none => none

/-- The digit-counting loop of `count_digits` (`display.rs`), translated
with an explicit fuel argument: the loop divides by 10 each step, so `n`
steps always suffice, and the fuel keeps the recursion structural. -/
def count_digits_fuel : Nat → Nat → Nat
  | 0, _ => 0
  | fuel + 1, n => if n = 0 then 0 else count_digits_fuel fuel (n / 10) + 1

/-- The digit-counting loop of `count_digits` (`display.rs`). -/
def count_digits_loop (n : Nat) : Nat := count_digits_fuel n n

/-- Model of `count_digits` from `display.rs`. -/
def count_digits (n : Nat) : Nat :=
  if n = 0 then 1 else count_digits_loop n

/-- Decimal digit bytes of a number (the rendering of `{n}`). -/
def natToBytes (n : Nat) : List Nat := (Nat.toDigits 10 n).map Char.toNat

/-- The rendering of the format specifier `{n:width$}` for a number:
right-aligned, left-padded with spaces. -/
def padNum (width n : Nat) : List Nat :=
  List.replicate (width - (natToBytes n).length) 32 ++ natToBytes n

/-- The rendering of `{"":width$}`: `width` spaces. -/
def spaces (width : Nat) : List Nat := List.replicate width 32

/-- Model of `Path::display` on the component model: components joined by `/`. -/
def pathDisplay (p : FsPath) : List Nat := List.intercalate (bytes "/") p

/-- Model of `ContextErrorOrigin::display`: `at <path>:<line>:<col>` for file
origins, ``in `<name>`, line <L>, column <C>`` for named origins, with the
prefix word dropped when `prefixed` is false. -/
def ContextErrorOrigin.displayOrigin (o : ContextErrorOrigin)
    (prefixed : Bool) : List Nat :=
  match o.origin with
  | .File path =>
    (if prefixed then bytes "at " else []) ++ pathDisplay path ++ bytes ":" ++
      natToBytes o.location.line_number ++ bytes ":" ++
      natToBytes o.location.column_number
  | .Named name =>
    (if prefixed then bytes "in " else []) ++ bytes "`" ++ name ++
      bytes "`, line " ++ natToBytes o.location.line_number ++
      bytes ", column " ++ natToBytes o.location.column_number

/-- Model of `ContextErrorOrigin::display_as_suffix` (prefix word included). -/
def ContextErrorOrigin.display_as_suffix (o : ContextErrorOrigin) : List Nat :=
  o.displayOrigin true

/-- Model of `ContextErrorOrigin::display_as_location` (no prefix word). -/
def ContextErrorOrigin.display_as_location (o : ContextErrorOrigin) : List Nat :=
  o.displayOrigin false

/-- The character written for one source character of the pointer-line
prefix: tabs are preserved, every other character becomes a space.  On the
byte model a character is represented by its leading byte; continuation
bytes produce nothing. -/
def pointerChar (b : Nat) : Option Nat :=
  if isContinuationByte b then none else some (if b = 9 then 9 else 32)

/-- The `--> <location>` header line of a rendered origin block. -/
def ContextErrorOrigin.headerLine (o : ContextErrorOrigin) : List Nat :=
  bytes "--> " ++ o.display_as_location

/-- A rendered `<line-number> | <text>` source line
(`" {lnum:width$} | {line}"`). -/
def numberedLine (width lnum : Nat) (text : List Nat) : List Nat :=
  bytes " " ++ padNum width lnum ++ bytes " | " ++ text

/-- The rendered elision marker line (`" {:width$} | ..."` with an empty
string argument). -/
def elisionLine (width : Nat) : List Nat :=
  bytes " " ++ spaces width ++ bytes " | ..."

/-- The rendered pointer line: `" {:width$} |"`, one space/tab per
character of the line text before the column, then `^ <note>`. -/
def ContextErrorOrigin.pointerLine (o : ContextErrorOrigin) (width : Nat) : List Nat :=
  bytes " " ++ spaces width ++ bytes " |" ++
    ((o.location.line.take o.location.column_number).filterMap pointerChar) ++
    bytes "^ " ++ o.note

/-- The `Display` impl for `ContextErrorOrigin` as a list of output lines
(each `writeln!` producing one line).  `none` models the panic of slicing
the line text at byte index `column_number` when that index is past the
end of the line or inside a multi-byte character. -/
def ContextErrorOrigin.render (o : ContextErrorOrigin) : Option (List (List Nat)) :=
  let w := count_digits o.location.line_number
  let ctxBlock : List (List Nat) :=
    match o.context with
    | none => []
    | some ctx =>
      if ctx.line_number < o.location.line_number then
        numberedLine w ctx.line_number ctx.line ::
          (if ctx.line_number + 1 ≠ o.location.line_number then [elisionLine w] else [])
      else
        []
  if is_char_boundary o.location.line o.location.column_number then
    some (o.headerLine :: ctxBlock ++
      [numberedLine w o.location.line_number o.location.line, o.pointerLine w])
  else
    none

/-- Model of `ContextError`: an error value with its resolved origins. -/
structure ContextError (E : Type) where
  error : E
  origins : List ContextErrorOrigin

/-- Model of `ContextError::with_origins`. -/
def ContextError.with_origins {E : Type} (error : E)
    (origins : List ContextErrorOrigin) : ContextError E :=
  { error := error, origins := origins }

/-- Model of `ContextError::display_origins_as_suffix`: the natural-language joining
of the origin list used by the one-line `Display` form. -/
def display_origins_as_suffix : List ContextErrorOrigin → List Nat
  | [] => []
  | [o] => bytes " " ++ o.display_as_suffix
  | [a, b] => bytes " " ++ a.display_as_suffix ++ bytes " and " ++ b.display_as_suffix
  | o :: rest => bytes " " ++ o.display_as_suffix ++ bytes "," ++
      display_origins_as_suffix rest

/-- Comma-joining of already-rendered origin strings, following the
specification's words ("a comma-separated list"). -/
def commaList : List (List Nat) → List Nat
  | [] => []
  | [s] => s
  | s :: rest => s ++ bytes ", " ++ commaList rest

/-- The specification's description of the origin-suffix joining: nothing
for zero origins, `" <a>"` for one, `" <a> and <b>"` for two, and for
three or more a comma-separated list with `"and"` before the last. -/
def specJoinSuffixes : List (List Nat) → List Nat
  | [] => []
  | [s] => bytes " " ++ s
  | s :: t :: rest =>
    bytes " " ++ commaList ((s :: t :: rest).dropLast) ++ bytes " and " ++
      (s :: t :: rest).getLastD []

/-- Model of `SourceError`: an error value anchored at an offset, with a note and an
optional context offset. -/
structure SourceError (E : Type) where
  error : E
  offset : Offset
  offset_note : List Nat
  context_offset : Option Offset

/-- Model of `SourceError::new`. -/
def SourceError.new {E : Type} (error : E) (offset : Offset)
    (offset_note : List Nat) : SourceError E :=
  { error := error, offset := offset, offset_note := offset_note, context_offset := none }

/-- Model of `SourceError::with_context`: attach a context offset; the Rust code
asserts (panic modelled as `none`) that it shares the primary offset's
source. -/
def SourceError.with_context {E : Type} (e : SourceError E) (offset : Offset) :
    Option (SourceError E) :=
  if e.offset.source_index = offset.source_index then
    some { e with context_offset := some offset }
  else
    none

/-- Model of `SourceError::map`. -/
def SourceError.map {E M : Type} (e : SourceError E) (map_error : E → M) : SourceError M :=
  { error := map_error e.error
    offset := e.offset
    offset_note := e.offset_note
    context_offset := e.context_offset }

/-- Model of `SourceError::into_context_error`: resolve through a map into a
`ContextError` with a single origin. -/
def SourceError.into_context_error {E : Type} (e : SourceError E) (m : SourceMap) :
    Option (ContextError E) :=
  (m.context_error_origin e.offset e.offset_note e.context_offset).map
    (fun origin => ContextError.with_origins e.error [origin])

/-- The deduplication well-formedness invariant of a `SourceMap`: no origin
occupies two slots, every table entry points at a slot holding exactly that
origin, and every slot's origin is found by the table at that slot. -/
def SourceMap.WF (m : SourceMap) : Prop :=
  (m.data.map SourceData.origin).Nodup ∧
  (∀ p ∈ m.origin_indices, (m.data.get? p.2).map SourceData.origin = some p.1) ∧
  (∀ i (h : i < m.data.length), assocLookup m.origin_indices (m.data.get ⟨i, h⟩).origin = some i)

instance (m : SourceMap) : Decidable m.WF := by
  unfold SourceMap.WF
  infer_instance

/-- Holds when `idx` was issued by `m`: it carries `m`'s id and refers to an existing
slot.  (Because map ids are process-unique and the map is append-only,
these two conditions characterise the indices handed out by `m`.) -/
def SourceMap.Issued (m : SourceMap) (idx : SourceIndex) : Prop :=
  idx.map_id = m.id ∧ idx.data_index < m.data.length

instance (m : SourceMap) (idx : SourceIndex) : Decidable (m.Issued idx) := by
  unfold SourceMap.Issued
  infer_instance

/-- A concrete map holding the three-line content of the repository's test
suite under the named origin `test`. -/
def exampleMap : SourceMap :=
  ((SourceMap.new 0).insert (.Named (bytes "test")) (bytes "abc\ndef\nghi")).1

/-- The index issued for the single entry of `exampleMap`. -/
def exampleIdx : SourceIndex := { map_id := 0, data_index := 0 }

/-- A concrete resolved origin: primary position on line 3, context
position on line 1 (the non-adjacent secondary-line scenario of the test
suite). -/
def c3Origin : ContextErrorOrigin :=
  { origin := .Named (bytes "test")
    note := bytes "test-note"
    location := { line_number := 3, column_number := 3, line := bytes "ghi" }
    context := some { line_number := 1, column_number := 1, line := bytes "abc" } }

/-- A concrete input cursor over the content `abcdef`. -/
def exampleInput : Input :=
  { source_index := exampleIdx, content := bytes "abcdef", byte := 0 }

end SrcCtx

namespace SrcCtx

theorem is_char_boundary_zero (l : List Nat) : is_char_boundary l 0 = true := by
  simp [is_char_boundary]

theorem is_char_boundary_le {l : List Nat} {i : Nat}
    (h : is_char_boundary l i = true) : i ≤ l.length := by
  unfold is_char_boundary at h
  rcases Bool.or_eq_true_iff.mp h with h0 | hm
  · simp only [beq_iff_eq] at h0
    omega
  · rcases hg : l.get? i with _ | b
    · rw [hg] at hm
      simp only [beq_iff_eq] at hm
      omega
    · obtain ⟨hlt, -⟩ := List.get?_eq_some.mp hg
      omega

theorem findNl_eq_none {l : List Nat} (h : findNl l = none) :
    ∀ i, l.get? i ≠ some 10 := by
  induction l with
  | nil => intro i; simp
  | cons b rest ih =>
    unfold findNl at h
    by_cases hb : b = 10
    · rw [if_pos hb] at h
      cases h
    · rw [if_neg hb] at h
      have hrest : findNl rest = none := by
        cases hr : findNl rest with
        | none => rfl
        | some j => rw [hr] at h; cases h
      intro i
      cases i with
      | zero => simpa using hb
      | succ i => simpa using ih hrest i

theorem findNl_eq_some {l : List Nat} {j : Nat} (h : findNl l = some j) :
    l.get? j = some 10 ∧ ∀ i, i < j → l.get? i ≠ some 10 := by
  induction l generalizing j with
  | nil => cases h
  | cons b rest ih =>
    unfold findNl at h
    by_cases hb : b = 10
    · rw [if_pos hb] at h
      injection h with h
      subst h
      exact ⟨by simpa using hb, fun i hi => absurd hi (Nat.not_lt_zero i)⟩
    · rw [if_neg hb] at h
      cases hr : findNl rest with
      | none => rw [hr] at h; cases h
      | some j' =>
        rw [hr] at h
        simp only [Option.map_some'] at h
        injection h with h
        subst h
        refine ⟨by simpa using (ih hr).1, ?_⟩
        intro i hi
        cases i with
        | zero => simpa using hb
        | succ i => simpa using (ih hr).2 i (by omega)

theorem rfindNl_eq_none {l : List Nat} (h : rfindNl l = none) :
    ∀ i, l.get? i ≠ some 10 := by
  induction l with
  | nil => intro i; simp
  | cons b rest ih =>
    unfold rfindNl at h
    cases hr : rfindNl rest with
    | some j => rw [hr] at h; cases h
    | none =>
      rw [hr] at h
      by_cases hb : b = 10
      · rw [if_pos hb] at h; cases h
      · intro i
        cases i with
        | zero => simpa using hb
        | succ i => simpa using ih hr i

theorem rfindNl_eq_some {l : List Nat} {j : Nat} (h : rfindNl l = some j) :
    l.get? j = some 10 ∧ ∀ i, j < i → l.get? i ≠ some 10 := by
  induction l generalizing j with
  | nil => cases h
  | cons b rest ih =>
    unfold rfindNl at h
    cases hr : rfindNl rest with
    | some j' =>
      rw [hr] at h
      injection h with h
      subst h
      refine ⟨by simpa using (ih hr).1, ?_⟩
      intro i hi
      cases i with
      | zero => omega
      | succ i => simpa using (ih hr).2 i (by omega)
    | none =>
      rw [hr] at h
      by_cases hb : b = 10
      · rw [if_pos hb] at h
        injection h with h
        subst h
        refine ⟨by simpa using hb, ?_⟩
        intro i hi
        cases i with
        | zero => omega
        | succ i => simpa using rfindNl_eq_none hr i
      · rw [if_neg hb] at h
        cases h

theorem splitByte_ne_nil (sep : Nat) (l : List Nat) : splitByte sep l ≠ [] := by
  cases l with
  | nil => simp [splitByte]
  | cons b rest =>
    unfold splitByte
    by_cases hb : b = sep
    · simp [hb]
    · rw [if_neg hb]
      cases hs : splitByte sep rest with
      | nil => simp
      | cons h t => simp

theorem splitByte_length (sep : Nat) (l : List Nat) :
    (splitByte sep l).length = l.count sep + 1 := by
  induction l with
  | nil => simp [splitByte]
  | cons b rest ih =>
    unfold splitByte
    by_cases hb : b = sep
    · subst hb
      simp [List.count_cons, ih]
    · rw [if_neg hb]
      cases hs : splitByte sep rest with
      | nil => exact absurd hs (splitByte_ne_nil sep rest)
      | cons h t =>
        rw [hs] at ih
        simp only [List.length_cons] at ih ⊢
        rw [List.count_cons]
        simp [hb, ← ih]

/-- C7 helper: on matching sources, `span` produces the normalized span. -/
theorem span_eq_minmax (a b : Offset) (h : a.source_index = b.source_index) :
    a.span b = some { offset := { source_index := a.source_index, byte := min a.byte b.byte }
                      byte_len := max a.byte b.byte - min a.byte b.byte } := by
  unfold Offset.span
  rw [if_pos h]
  have h1 : (if b.byte < a.byte then b.byte else a.byte) = min a.byte b.byte := by
    split_ifs with hba <;> omega
  have h2 : (if b.byte < a.byte then a.byte else b.byte) = max a.byte b.byte := by
    split_ifs with hba <;> omega
  simp only [h1, h2]

/-- C7: for any two offsets of the same source, `span` is order-independent,
its length is the absolute byte distance, its start is the smaller byte
position, and its computed end is start plus length (which is also the
upper bound of `byte_range`). -/
theorem C7_span_order_independent (a b : Offset)
    (h : a.source_index = b.source_index) :
    a.span b = b.span a ∧
    ∃ s, a.span b = some s ∧
      s.byte_len = Int.natAbs ((a.byte : ℤ) - (b.byte : ℤ)) ∧
      s.start.byte = min a.byte b.byte ∧
      (s.end').byte = s.start.byte + s.byte_len ∧
      s.byte_range = (s.start.byte, s.start.byte + s.byte_len) := by
  have ha := span_eq_minmax a b h
  have hb := span_eq_minmax b a h.symm
  constructor
  · rw [ha, hb, h]
    have h1 : min a.byte b.byte = min b.byte a.byte := by omega
    have h2 : max a.byte b.byte = max b.byte a.byte := by omega
    rw [h1, h2]
  · refine ⟨_, ha, ?_, rfl, rfl, rfl⟩
    show max a.byte b.byte - min a.byte b.byte = _
    omega

/-- C7 witness: concrete offsets at bytes 5 and 2 of the same source. -/
theorem C7_witness :
    ((Offset.mk exampleIdx 5).span (Offset.mk exampleIdx 2)
        = (Offset.mk exampleIdx 2).span (Offset.mk exampleIdx 5)) ∧
    ∃ s, (Offset.mk exampleIdx 5).span (Offset.mk exampleIdx 2) = some s ∧
      s.byte_len = Int.natAbs (((Offset.mk exampleIdx 5).byte : ℤ)
        - ((Offset.mk exampleIdx 2).byte : ℤ)) ∧
      s.start.byte = min (Offset.mk exampleIdx 5).byte (Offset.mk exampleIdx 2).byte ∧
      (s.end').byte = s.start.byte + s.byte_len ∧
      s.byte_range = (s.start.byte, s.start.byte + s.byte_len) :=
  C7_span_order_independent (Offset.mk exampleIdx 5) (Offset.mk exampleIdx 2) rfl

/-- C8: at any character-boundary byte length of the remaining content,
`split` succeeds and is exactly the pair of `truncate` and `skip`, and
`skip 0` returns the input value unchanged (the operations are pure
functions of the embedding, so the original `Input` value is never
modified). -/
theorem C8_split_truncate_skip (inp : Input) (n : Nat)
    (h : is_char_boundary inp.content n = true) :
    (∃ t s, inp.truncate n = some t ∧ inp.skip n = some s ∧
      inp.split n = some (t, s)) ∧
    inp.skip 0 = some inp := by
  have ht : inp.truncate n =
      some { source_index := inp.source_index, content := inp.content.take n
             byte := inp.byte } := by
    unfold Input.truncate
    rw [if_pos h]
  have hs : inp.skip n =
      some { source_index := inp.source_index, content := inp.content.drop n
             byte := inp.byte + n } := by
    unfold Input.skip
    rw [if_pos h]
  have hsp : inp.split n =
      some ({ source_index := inp.source_index, content := inp.content.take n
              byte := inp.byte },
            { source_index := inp.source_index, content := inp.content.drop n
              byte := inp.byte + n }) := by
    unfold Input.split
    rw [ht, hs]
  refine ⟨⟨_, _, ht, hs, hsp⟩, ?_⟩
  unfold Input.skip
  rw [if_pos (is_char_boundary_zero inp.content)]
  simp

/-- C8 witness: splitting the concrete cursor over `abcdef` at byte 3. -/
theorem C8_witness :
    (∃ t s, exampleInput.truncate 3 = some t ∧ exampleInput.skip 3 = some s ∧
      exampleInput.split 3 = some (t, s)) ∧
    exampleInput.skip 0 = some exampleInput :=
  C8_split_truncate_skip exampleInput 3 (by decide)

/-- C4: rendering a resolved diagnostic is not total — for the registered
content `abc\ndef\nghi` and the in-bounds offset at byte 3 (the first
`\n`), the origin resolves fine but displaying it panics, because the
pointer line slices the stored line text `abc` at byte index
`column_number = 4`, which is past the line's end. -/
theorem C4_render_not_total :
    3 ≤ (bytes "abc\ndef\nghi").length ∧
    ∃ o, exampleMap.context_error_origin { source_index := exampleIdx, byte := 3 }
          (bytes "test-note") none = some o ∧
      o.location.column_number = 4 ∧
      o.location.line = bytes "abc" ∧
      o.render = none := by
  refine ⟨by decide,
    ⟨{ origin := .Named (bytes "test"), note := bytes "test-note"
       location := { line_number := 1, column_number := 4, line := bytes "abc" }
       context := none },
     by decide, by decide, by decide, by decide⟩⟩

/-- C5: the claim's extension filter does not match the code.  With a
directory walk yielding the single file `foo.rs` and extension `rs`, the
path does end with the extension as a string suffix (`specStringSuffix`),
yet `load_directory` reads and registers nothing: `Path::ends_with`
compares whole path components, and the component `foo.rs` is not the
component `rs`.  The map comes back unchanged with an empty outcome
list. -/
theorem C5_extension_filter_divergence :
    (SourceMap.new 2).load_directory (fun _ => some (bytes "content"))
        [.ok { path := [bytes "foo.rs"], isFile := true }] [bytes "root"] (bytes "rs")
      = some (SourceMap.new 2, .ok []) ∧
    specStringSuffix [bytes "foo.rs"] (bytes "rs") = true ∧
    pathEndsWith [bytes "foo.rs"] (strToPath (bytes "rs")) = false := by
  refine ⟨by decide, by decide, by decide⟩

/-- C1: if `load_directory` returns an error — a traversal failure or a
file-read failure — the resulting map is exactly the map before the call:
no insertion at all is performed (all reads happen in the collection
phase, insertions only afterwards on overall success). -/
theorem C1_load_directory_atomic (m : SourceMap)
    (readFs : FsPath → Option (List Nat)) (walk : List (Except Unit DirEntry))
    (root : FsPath) (extension : List Nat) (m' : SourceMap) (e : LoadError)
    (h : m.load_directory readFs walk root extension = some (m', .error e)) :
    m' = m ∧ m'.data = m.data := by
  unfold SourceMap.load_directory at h
  cases hc : m.collectLoads readFs root extension walk with
  | error err =>
    rw [hc] at h
    simp only [Option.some.injEq, Prod.mk.injEq] at h
    exact ⟨h.1.symm, by rw [h.1]⟩
  | ok opens =>
    rw [hc] at h
    simp only at h
    cases hi : m.insertOpens opens with
    | none => rw [hi] at h; cases h
    | some res =>
      rw [hi] at h
      simp only [Option.some.injEq, Prod.mk.injEq] at h
      exact absurd h.2 (by simp)

/-- C1 witness: a read failure on the matching file `rs` leaves the fresh
map untouched. -/
theorem C1_witness :
    (SourceMap.new 1).load_directory (fun _ => none)
        [.ok { path := [bytes "rs"], isFile := true }] [bytes "root"] (bytes "rs")
      = some (SourceMap.new 1, .error (.Read [bytes "rs"])) ∧
    SourceMap.new 1 = SourceMap.new 1 ∧
    (SourceMap.new 1).data = (SourceMap.new 1).data :=
  ⟨by decide,
   (C1_load_directory_atomic (SourceMap.new 1) (fun _ => none)
      [.ok { path := [bytes "rs"], isFile := true }] [bytes "root"] (bytes "rs")
      (SourceMap.new 1) (.Read [bytes "rs"]) (by decide)).1,
   (C1_load_directory_atomic (SourceMap.new 1) (fun _ => none)
      [.ok { path := [bytes "rs"], isFile := true }] [bytes "root"] (bytes "rs")
      (SourceMap.new 1) (.Read [bytes "rs"]) (by decide)).2⟩

theorem specJoin_cons (s t u : List Nat) (rest : List (List Nat)) :
    specJoinSuffixes (s :: t :: u :: rest) =
      bytes " " ++ s ++ bytes "," ++ specJoinSuffixes (t :: u :: rest) := by
  show bytes " " ++ commaList ((s :: t :: u :: rest).dropLast) ++ bytes " and " ++
      (s :: t :: u :: rest).getLastD [] = _
  have hdl : (s :: t :: u :: rest).dropLast = s :: t :: (u :: rest).dropLast := by
    simp
  have hdl2 : (t :: u :: rest).dropLast = t :: (u :: rest).dropLast := by
    simp
  have hlast : (s :: t :: u :: rest).getLastD ([] : List Nat)
      = (t :: u :: rest).getLastD [] := by
    simp [List.getLastD_cons]
  rw [hdl, hlast]
  show _ = bytes " " ++ s ++ bytes "," ++
    (bytes " " ++ commaList ((t :: u :: rest).dropLast) ++ bytes " and " ++
      (t :: u :: rest).getLastD [])
  rw [hdl2]
  show bytes " " ++ (s ++ bytes ", " ++ commaList (t :: (u :: rest).dropLast)) ++
      bytes " and " ++ (t :: u :: rest).getLastD [] = _
  simp [bytes, List.append_assoc]

theorem join_suffixes_spec : ∀ l : List ContextErrorOrigin,
    display_origins_as_suffix l =
      specJoinSuffixes (l.map ContextErrorOrigin.display_as_suffix)
  | [] => rfl
  | [_] => rfl
  | [a, b] => by
    show bytes " " ++ a.display_as_suffix ++ bytes " and " ++ b.display_as_suffix =
      bytes " " ++
        commaList ([a.display_as_suffix, b.display_as_suffix].dropLast) ++
        bytes " and " ++ [a.display_as_suffix, b.display_as_suffix].getLastD []
    simp [commaList, List.append_assoc]
  | a :: b :: c :: rest => by
    have ih := join_suffixes_spec (b :: c :: rest)
    show bytes " " ++ a.display_as_suffix ++ bytes "," ++
        display_origins_as_suffix (b :: c :: rest) = _
    rw [ih]
    simp only [List.map_cons]
    rw [specJoin_cons]

/-- C9: the one-line `Display` suffix joins the attached origins with
natural-language conjunction — nothing for zero origins, `" <a>"` for one,
`" <a> and <b>"` for two, and for three or more a comma-separated list
with `"and"` before the last origin (the specification-side description
`specJoinSuffixes`). -/
theorem C9_display_origins_join (l : List ContextErrorOrigin) :
    display_origins_as_suffix l =
      specJoinSuffixes (l.map ContextErrorOrigin.display_as_suffix) :=
  join_suffixes_spec l

theorem isSome_map_eq {α β : Type} (f : α → β) (x : Option α) :
    (x.map f).isSome = x.isSome := by
  cases x <;> rfl

theorem get?_isSome_iff {α : Type} (l : List α) (n : Nat) :
    (l.get? n).isSome = true ↔ n < l.length := by
  constructor
  · intro h
    cases hg : l.get? n with
    | none => rw [hg] at h; cases h
    | some a =>
      obtain ⟨hlt, -⟩ := List.get?_eq_some.mp hg
      exact hlt
  · intro h
    rw [List.get?_eq_get h]
    rfl

theorem mono_insert (m : SourceMap) (origin : Origin) (content : List Nat) :
    (m.insert origin content).1.id = m.id ∧
    m.data.length ≤ (m.insert origin content).1.data.length := by
  unfold SourceMap.insert
  cases hc : assocLookup m.origin_indices origin with
  | some prev => simp
  | none => simp

theorem insertOpens_nil (m : SourceMap) : m.insertOpens [] = some (m, []) := rfl

theorem insertOpens_error (m : SourceMap) (idx : SourceIndex)
    (rest : List (Except SourceIndex (Origin × List Nat))) :
    m.insertOpens (.error idx :: rest) =
      (match m.insertOpens rest with
       | some (m'', outs) => some (m'', .Previous idx :: outs)
       | none => none) := rfl

theorem insertOpens_ok (m : SourceMap) (origin : Origin) (content : List Nat)
    (rest : List (Except SourceIndex (Origin × List Nat))) :
    m.insertOpens (.ok (origin, content) :: rest) =
      (match m.insert origin content with
       | (m', .Inserted idx) =>
         (match m'.insertOpens rest with
          | some (m'', outs) => some (m'', .Inserted idx :: outs)
          | none => none)
       | (_, .Previous _) => none) := rfl

theorem mono_insertOpens :
    ∀ (l : List (Except SourceIndex (Origin × List Nat))) (m m' : SourceMap)
      (outs : List Insert), m.insertOpens l = some (m', outs) →
      m'.id = m.id ∧ m.data.length ≤ m'.data.length := by
  intro l
  induction l with
  | nil =>
    intro m m' outs h
    rw [insertOpens_nil] at h
    simp only [Option.some.injEq, Prod.mk.injEq] at h
    rw [← h.1]
    exact ⟨rfl, Nat.le_refl _⟩
  | cons item rest ih =>
    intro m m' outs h
    cases item with
    | error idx =>
      rw [insertOpens_error] at h
      cases hr : m.insertOpens rest with
      | none => rw [hr] at h; cases h
      | some res =>
        rw [hr] at h
        obtain ⟨m'', outs'⟩ := res
        simp only [Option.some.injEq, Prod.mk.injEq] at h
        have := ih m m'' outs' hr
        rw [← h.1]
        exact this
    | ok oc =>
      obtain ⟨origin, content⟩ := oc
      rw [insertOpens_ok] at h
      cases hi : m.insert origin content with
      | mk m₁ r =>
        rw [hi] at h
        cases r with
        | Previous idx => cases h
        | Inserted idx =>
          simp only at h
          cases hr : m₁.insertOpens rest with
          | none => rw [hr] at h; cases h
          | some res =>
            rw [hr] at h
            obtain ⟨m'', outs'⟩ := res
            simp only [Option.some.injEq, Prod.mk.injEq] at h
            have h1 := ih m₁ m'' outs' hr
            have h2 := mono_insert m origin content
            rw [hi] at h2
            rw [← h.1]
            exact ⟨h1.1.trans h2.1, h2.2.trans h1.2⟩

theorem mono_load_file (m : SourceMap) (readFs : FsPath → Option (List Nat))
    (path : FsPath) (m' : SourceMap) (r : Except LoadError Insert)
    (h : m.load_file readFs path = some (m', r)) :
    m'.id = m.id ∧ m.data.length ≤ m'.data.length := by
  unfold SourceMap.load_file at h
  cases hrf : m.read_file readFs path with
  | error err =>
    cases err with
    | Previous idx =>
      rw [hrf] at h
      simp only [Option.some.injEq, Prod.mk.injEq] at h
      rw [← h.1]
      exact ⟨rfl, Nat.le_refl _⟩
    | Read file =>
      rw [hrf] at h
      simp only [Option.some.injEq, Prod.mk.injEq] at h
      rw [← h.1]
      exact ⟨rfl, Nat.le_refl _⟩
  | ok content =>
    rw [hrf] at h
    simp only at h
    cases hi : m.insert (.File path) content with
    | mk m₁ res =>
      rw [hi] at h
      cases res with
      | Previous idx => cases h
      | Inserted idx =>
        simp only [Option.some.injEq, Prod.mk.injEq] at h
        have h2 := mono_insert m (.File path) content
        rw [hi] at h2
        rw [← h.1]
        exact h2

theorem mono_load_directory (m : SourceMap) (readFs : FsPath → Option (List Nat))
    (walk : List (Except Unit DirEntry)) (root : FsPath) (extension : List Nat)
    (m' : SourceMap) (r : Except LoadError (List Insert))
    (h : m.load_directory readFs walk root extension = some (m', r)) :
    m'.id = m.id ∧ m.data.length ≤ m'.data.length := by
  unfold SourceMap.load_directory at h
  cases hc : m.collectLoads readFs root extension walk with
  | error err =>
    rw [hc] at h
    simp only [Option.some.injEq, Prod.mk.injEq] at h
    rw [← h.1]
    exact ⟨rfl, Nat.le_refl _⟩
  | ok opens =>
    rw [hc] at h
    simp only at h
    cases hi : m.insertOpens opens with
    | none => rw [hi] at h; cases h
    | some res =>
      rw [hi] at h
      obtain ⟨m'', outs⟩ := res
      simp only [Option.some.injEq, Prod.mk.injEq] at h
      have := mono_insertOpens opens m m'' outs hi
      rw [← h.1]
      exact this

/-- C10: the accessors `content`, `origin` and `input` succeed exactly on
indices issued by the map (right map id and in-range slot) and fault
otherwise; `SourceError::with_context` faults exactly when the secondary
offset's source differs from the primary's; and issued indices stay
issued across every mutating operation, because the map only ever appends
(`insert`, `load_file`, `load_directory` never shrink the data and never
change the map id). -/
theorem C10_accessors_fault_on_foreign_index (m : SourceMap) (idx : SourceIndex) :
    ((m.content idx).isSome = true ↔ m.Issued idx) ∧
    ((m.origin idx).isSome = true ↔ m.Issued idx) ∧
    ((m.input idx).isSome = true ↔ m.Issued idx) ∧
    (∀ (E : Type) (e : SourceError E) (off : Offset),
      e.with_context off = none ↔ e.offset.source_index ≠ off.source_index) ∧
    (∀ origin content, m.Issued idx → ((m.insert origin content).1.Issued idx)) ∧
    (∀ readFs path m' r, m.load_file readFs path = some (m', r) →
      m.Issued idx → m'.Issued idx) ∧
    (∀ readFs walk root extension m' r,
      m.load_directory readFs walk root extension = some (m', r) →
      m.Issued idx → m'.Issued idx) := by
  refine ⟨?_, ?_, ?_, ?_, ?_, ?_, ?_⟩
  · unfold SourceMap.content SourceMap.Issued
    by_cases h : m.id = idx.map_id
    · rw [if_pos h, isSome_map_eq, get?_isSome_iff]
      exact ⟨fun hlt => ⟨h.symm, hlt⟩, fun hi => hi.2⟩
    · rw [if_neg h]
      exact ⟨fun hc => Bool.noConfusion hc, fun hi => absurd hi.1.symm h⟩
  · unfold SourceMap.origin SourceMap.Issued
    by_cases h : m.id = idx.map_id
    · rw [if_pos h, isSome_map_eq, get?_isSome_iff]
      exact ⟨fun hlt => ⟨h.symm, hlt⟩, fun hi => hi.2⟩
    · rw [if_neg h]
      exact ⟨fun hc => Bool.noConfusion hc, fun hi => absurd hi.1.symm h⟩
  · unfold SourceMap.input SourceMap.Issued
    by_cases h : m.id = idx.map_id
    · rw [if_pos h, isSome_map_eq, get?_isSome_iff]
      exact ⟨fun hlt => ⟨h.symm, hlt⟩, fun hi => hi.2⟩
    · rw [if_neg h]
      exact ⟨fun hc => Bool.noConfusion hc, fun hi => absurd hi.1.symm h⟩
  · intro E e off
    unfold SourceError.with_context
    by_cases h : e.offset.source_index = off.source_index
    · rw [if_pos h]
      simp [h]
    · rw [if_neg h]
      simp [h]
  · intro origin content hi
    have := mono_insert m origin content
    exact ⟨hi.1.trans this.1.symm, Nat.lt_of_lt_of_le hi.2 this.2⟩
  · intro readFs path m' r h hi
    have := mono_load_file m readFs path m' r h
    exact ⟨hi.1.trans this.1.symm, Nat.lt_of_lt_of_le hi.2 this.2⟩
  · intro readFs walk root extension m' r h hi
    have := mono_load_directory m readFs walk root extension m' r h
    exact ⟨hi.1.trans this.1.symm, Nat.lt_of_lt_of_le hi.2 this.2⟩

/-- C10 witness: on the concrete one-entry map, the issued index `(0, 0)`
is accepted by `content`, a foreign index is rejected, and the issued
index survives a further insertion. -/
theorem C10_witness :
    (exampleMap.content exampleIdx).isSome = true ∧
    ¬ (exampleMap.content { map_id := 7, data_index := 0 }).isSome = true ∧
    (exampleMap.insert (.Named (bytes "other")) []).1.Issued exampleIdx :=
  ⟨(C10_accessors_fault_on_foreign_index exampleMap exampleIdx).1.mpr (by decide),
   fun hc =>
     absurd ((C10_accessors_fault_on_foreign_index exampleMap
        { map_id := 7, data_index := 0 }).1.mp hc) (by decide),
   (C10_accessors_fault_on_foreign_index exampleMap exampleIdx).2.2.2.2.1
     (.Named (bytes "other")) [] (by decide)⟩

theorem assocLookup_cons (o : Origin) (n : Nat) (l : List (Origin × Nat)) (o' : Origin) :
    assocLookup ((o, n) :: l) o' = if o = o' then some n else assocLookup l o' := by
  unfold assocLookup
  by_cases h : o = o'
  · rw [List.find?_cons_of_pos _ (by simpa using h), if_pos h]
    rfl
  · rw [List.find?_cons_of_neg _ (by simpa using h), if_neg h]

theorem lookup_none_not_mem {m : SourceMap} (hwf : m.WF) {origin : Origin}
    (hc : assocLookup m.origin_indices origin = none) :
    origin ∉ m.data.map SourceData.origin := by
  intro hmem
  obtain ⟨d, hd, hdo⟩ := List.mem_map.mp hmem
  obtain ⟨⟨i, hi⟩, hg⟩ := List.mem_iff_get.mp hd
  have := hwf.2.2 i hi
  rw [hg, hdo, hc] at this
  cases this

theorem WF_insert (m : SourceMap) (origin : Origin) (content : List Nat)
    (hwf : m.WF) : ((m.insert origin content).1).WF := by
  unfold SourceMap.insert
  cases hc : assocLookup m.origin_indices origin with
  | some prev => exact hwf
  | none =>
    simp only
    have hnot := lookup_none_not_mem hwf hc
    refine ⟨?_, ?_, ?_⟩
    · show ((m.data ++ [({ origin := origin, content := content } : SourceData)]).map
        SourceData.origin).Nodup
      rw [List.map_append]
      have : (m.data.map SourceData.origin ++ [origin]).Nodup ↔
          (m.data.map SourceData.origin).Nodup ∧ origin ∉ m.data.map SourceData.origin := by
        simp [List.nodup_append]
      exact this.mpr ⟨hwf.1, hnot⟩
    · intro p hp
      rcases List.mem_cons.mp hp with hphead | hptail
      · subst hphead
        show ((m.data ++ [({ origin := origin, content := content } : SourceData)]).get?
          m.data.length).map SourceData.origin = some origin
        rw [List.get?_concat_length]
        rfl
      · have hold := hwf.2.1 p hptail
        have hlt : p.2 < m.data.length := by
          cases hg : m.data.get? p.2 with
          | none => rw [hg] at hold; cases hold
          | some d =>
            obtain ⟨hlt, -⟩ := List.get?_eq_some.mp hg
            exact hlt
        show ((m.data ++ [({ origin := origin, content := content } : SourceData)]).get? p.2).map
          SourceData.origin = some p.1
        rw [List.get?_append hlt]
        exact hold
    · intro i hi
      have hlen : (m.data ++ [({ origin := origin, content := content } : SourceData)]).length
          = m.data.length + 1 := by simp
      rw [hlen] at hi
      by_cases hin : i = m.data.length
      · subst hin
        have hget : (m.data ++ [({ origin := origin, content := content } : SourceData)]).get?
            m.data.length = some ({ origin := origin, content := content } : SourceData) :=
          List.get?_concat_length _ _
        have hget2 := List.get?_eq_get (l := m.data ++ [({ origin := origin, content := content } : SourceData)])
          (n := m.data.length) (by simpa using hi)
        rw [hget] at hget2
        have heq := Option.some.inj hget2
        show assocLookup ((origin, m.data.length) :: m.origin_indices) _ = _
        rw [← heq]
        rw [assocLookup_cons]
        rw [if_pos rfl]
      · have hilt : i < m.data.length := by omega
        have hget : (m.data ++ [({ origin := origin, content := content } : SourceData)]).get? i
            = m.data.get? i := List.get?_append hilt
        have hget2 := List.get?_eq_get (l := m.data ++ [({ origin := origin, content := content } : SourceData)])
          (n := i) (by simpa using hi)
        have hget3 := List.get?_eq_get (l := m.data) (n := i) hilt
        rw [hget2, hget3] at hget
        have heq := Option.some.inj hget
        show assocLookup ((origin, m.data.length) :: m.origin_indices) _ = _
        rw [heq, assocLookup_cons]
        have hne : origin ≠ (m.data.get ⟨i, hilt⟩).origin := by
          intro hco
          exact hnot (hco ▸ List.mem_map.mpr ⟨m.data.get ⟨i, hilt⟩, List.get_mem _ _ _, rfl⟩)
        rw [if_neg hne]
        exact hwf.2.2 i hilt

theorem WF_insertOpens :
    ∀ (l : List (Except SourceIndex (Origin × List Nat))) (m m' : SourceMap)
      (outs : List Insert), m.insertOpens l = some (m', outs) → m.WF → m'.WF := by
  intro l
  induction l with
  | nil =>
    intro m m' outs h hwf
    rw [insertOpens_nil] at h
    simp only [Option.some.injEq, Prod.mk.injEq] at h
    rw [← h.1]
    exact hwf
  | cons item rest ih =>
    intro m m' outs h hwf
    cases item with
    | error idx =>
      rw [insertOpens_error] at h
      cases hr : m.insertOpens rest with
      | none => rw [hr] at h; cases h
      | some res =>
        rw [hr] at h
        obtain ⟨m'', outs'⟩ := res
        simp only [Option.some.injEq, Prod.mk.injEq] at h
        rw [← h.1]
        exact ih m m'' outs' hr hwf
    | ok oc =>
      obtain ⟨origin, content⟩ := oc
      rw [insertOpens_ok] at h
      cases hi : m.insert origin content with
      | mk m₁ r =>
        rw [hi] at h
        cases r with
        | Previous idx => cases h
        | Inserted idx =>
          simp only at h
          cases hr : m₁.insertOpens rest with
          | none => rw [hr] at h; cases h
          | some res =>
            rw [hr] at h
            obtain ⟨m'', outs'⟩ := res
            simp only [Option.some.injEq, Prod.mk.injEq] at h
            have hwf1 : m₁.WF := by
              have := WF_insert m origin content hwf
              rw [hi] at this
              exact this
            rw [← h.1]
            exact ih m₁ m'' outs' hr hwf1

/-- C6: origins are never stored twice.  On a well-formed map, inserting an
`Origin` that is already present returns `Previous` with the original
slot's index, leaves the map (and hence `content`/`origin` of every index)
unchanged, and the recorded slot really holds that origin; and the
well-formedness invariant is preserved by `insert`, `load_file` and
`load_directory`. -/
theorem C6_origin_dedup (m : SourceMap) (hwf : m.WF) :
    (∀ origin content prev, assocLookup m.origin_indices origin = some prev →
      m.insert origin content = (m, .Previous { map_id := m.id, data_index := prev }) ∧
      (m.data.get? prev).map SourceData.origin = some origin) ∧
    (∀ origin content, ((m.insert origin content).1).WF) ∧
    (∀ readFs path m' r, m.load_file readFs path = some (m', r) → m'.WF) ∧
    (∀ readFs walk root extension m' r,
      m.load_directory readFs walk root extension = some (m', r) → m'.WF) := by
  refine ⟨?_, ?_, ?_, ?_⟩
  · intro origin content prev hc
    constructor
    · unfold SourceMap.insert
      rw [hc]
    · have hfind := hc
      unfold assocLookup at hfind
      cases hf : m.origin_indices.find? (fun p => decide (p.1 = origin)) with
      | none => rw [hf] at hfind; cases hfind
      | some p =>
        rw [hf] at hfind
        have hmem := List.mem_of_find?_eq_some hf
        have hp := List.find?_some hf
        have hp1 : p.1 = origin := by simpa using hp
        have hp2 : p.2 = prev := Option.some.inj hfind
        have := hwf.2.1 p hmem
        rw [hp1, hp2] at this
        exact this
  · intro origin content
    exact WF_insert m origin content hwf
  · intro readFs path m' r h
    unfold SourceMap.load_file at h
    cases hrf : m.read_file readFs path with
    | error err =>
      cases err with
      | Previous idx =>
        rw [hrf] at h
        simp only [Option.some.injEq, Prod.mk.injEq] at h
        rw [← h.1]
        exact hwf
      | Read file =>
        rw [hrf] at h
        simp only [Option.some.injEq, Prod.mk.injEq] at h
        rw [← h.1]
        exact hwf
    | ok content =>
      rw [hrf] at h
      simp only at h
      cases hi : m.insert (.File path) content with
      | mk m₁ res =>
        rw [hi] at h
        cases res with
        | Previous idx => cases h
        | Inserted idx =>
          simp only [Option.some.injEq, Prod.mk.injEq] at h
          have := WF_insert m (.File path) content hwf
          rw [hi] at this
          rw [← h.1]
          exact this
  · intro readFs walk root extension m' r h
    unfold SourceMap.load_directory at h
    cases hc : m.collectLoads readFs root extension walk with
    | error err =>
      rw [hc] at h
      simp only [Option.some.injEq, Prod.mk.injEq] at h
      rw [← h.1]
      exact hwf
    | ok opens =>
      rw [hc] at h
      simp only at h
      cases hi : m.insertOpens opens with
      | none => rw [hi] at h; cases h
      | some res =>
        rw [hi] at h
        obtain ⟨m'', outs⟩ := res
        simp only [Option.some.injEq, Prod.mk.injEq] at h
        rw [← h.1]
        exact WF_insertOpens opens m m'' outs hi hwf

/-- C6 witness: on the concrete one-entry map, re-inserting the origin
`test` returns `Previous` with slot 0 and leaves the map unchanged, and
a fresh insertion preserves well-formedness. -/
theorem C6_witness :
    exampleMap.insert (.Named (bytes "test")) (bytes "zzz")
      = (exampleMap, .Previous { map_id := 0, data_index := 0 }) ∧
    (exampleMap.data.get? 0).map SourceData.origin = some (.Named (bytes "test")) ∧
    (exampleMap.insert (.Named (bytes "fresh")) (bytes "zzz")).1.WF :=
  ⟨((C6_origin_dedup exampleMap (by decide)).1 (.Named (bytes "test")) (bytes "zzz") 0
      (by decide)).1,
   ((C6_origin_dedup exampleMap (by decide)).1 (.Named (bytes "test")) (bytes "zzz") 0
      (by decide)).2,
   (C6_origin_dedup exampleMap (by decide)).2.1 (.Named (bytes "fresh")) (bytes "zzz")⟩


theorem get?_take_lt {c : List Nat} {p i : Nat} (h : i < p) :
    (c.take p).get? i = c.get? i := by
  rw [List.get?_eq_getElem?, List.get?_eq_getElem?, List.getElem?_take, if_pos h]

theorem get?_drop_eq (c : List Nat) (p i : Nat) :
    (c.drop p).get? i = c.get? (p + i) := by
  rw [List.get?_eq_getElem?, List.get?_eq_getElem?, List.getElem?_drop]

theorem rfind_take_spec (c : List Nat) (p : Nat) :
    (∀ b, rfindNl (c.take p) = some b →
      b + 1 ≤ p ∧ c.get? b = some 10 ∧
        ∀ i, b + 1 ≤ i → i < p → c.get? i ≠ some 10) ∧
    (rfindNl (c.take p) = none → ∀ i, i < p → c.get? i ≠ some 10) := by
  constructor
  · intro b hb
    obtain ⟨hg, hafter⟩ := rfindNl_eq_some hb
    have hblt : b < (c.take p).length := by
      obtain ⟨hlt, -⟩ := List.get?_eq_some.mp hg
      exact hlt
    have hbp : b < p := by
      rw [List.length_take] at hblt
      omega
    refine ⟨hbp, by rw [← get?_take_lt hbp]; exact hg, ?_⟩
    intro i hi1 hi2 hci
    exact hafter i (by omega) (by rw [get?_take_lt hi2]; exact hci)
  · intro hn i hi hci
    exact rfindNl_eq_none hn i (by rw [get?_take_lt hi]; exact hci)

theorem find_drop_spec (c : List Nat) (p : Nat) :
    (∀ b, findNl (c.drop p) = some b →
      c.get? (p + b) = some 10 ∧ p + b < c.length ∧
        ∀ i, p ≤ i → i < p + b → c.get? i ≠ some 10) ∧
    (findNl (c.drop p) = none → ∀ i, p ≤ i → i < c.length → c.get? i ≠ some 10) := by
  constructor
  · intro b hb
    obtain ⟨hg, hbefore⟩ := findNl_eq_some hb
    rw [get?_drop_eq] at hg
    have hlt : p + b < c.length := by
      obtain ⟨hlt, -⟩ := List.get?_eq_some.mp hg
      exact hlt
    refine ⟨hg, hlt, ?_⟩
    intro i hi1 hi2 hci
    have heq : p + (i - p) = i := by omega
    refine hbefore (i - p) (by omega) ?_
    rw [get?_drop_eq, heq]
    exact hci
  · intro hn i hi1 hi2 hci
    have heq : p + (i - p) = i := by omega
    refine findNl_eq_none hn (i - p) ?_
    rw [get?_drop_eq, heq]
    exact hci

theorem line_span_spec (m : SourceMap) (offset : Offset) (c : List Nat)
    (hc : m.content offset.source_index = some c)
    (hb : is_char_boundary c offset.byte = true) :
    ∃ s e : Nat,
      m.line_span offset = some { offset := { source_index := offset.source_index
                                              byte := s }
                                  byte_len := e - s } ∧
      s ≤ offset.byte ∧ offset.byte ≤ e ∧ e ≤ c.length ∧
      (s = 0 ∨ c.get? (s - 1) = some 10) ∧
      (∀ i, s ≤ i → i < offset.byte → c.get? i ≠ some 10) ∧
      (∀ i, offset.byte ≤ i → i < e → c.get? i ≠ some 10) ∧
      (e = c.length ∨ c.get? e = some 10) := by
  have hple : offset.byte ≤ c.length := is_char_boundary_le hb
  unfold SourceMap.line_span
  rw [hc]
  simp only
  rw [if_pos hb]
  cases hrf : rfindNl (c.take offset.byte) with
  | some b =>
    obtain ⟨hbp, hbg, hafter⟩ := (rfind_take_spec c offset.byte).1 b hrf
    cases hff : findNl (c.drop offset.byte) with
    | some d =>
      obtain ⟨hdg, hdl, hbefore⟩ := (find_drop_spec c offset.byte).1 d hff
      refine ⟨b + 1, d + offset.byte, rfl, hbp, by omega, by omega,
        Or.inr (by simpa using hbg), hafter, ?_, Or.inr (by rw [Nat.add_comm]; exact hdg)⟩
      intro i hi1 hi2
      exact hbefore i hi1 (by omega)
    | none =>
      have hnone := (find_drop_spec c offset.byte).2 hff
      exact ⟨b + 1, c.length, rfl, hbp, hple, Nat.le_refl _,
        Or.inr (by simpa using hbg), hafter, hnone, Or.inl rfl⟩
  | none =>
    have hnone1 := (rfind_take_spec c offset.byte).2 hrf
    cases hff : findNl (c.drop offset.byte) with
    | some d =>
      obtain ⟨hdg, hdl, hbefore⟩ := (find_drop_spec c offset.byte).1 d hff
      refine ⟨0, d + offset.byte, rfl, Nat.zero_le _, by omega, by omega,
        Or.inl rfl, fun i _ hi2 => hnone1 i hi2, ?_,
        Or.inr (by rw [Nat.add_comm]; exact hdg)⟩
      intro i hi1 hi2
      exact hbefore i hi1 (by omega)
    | none =>
      have hnone2 := (find_drop_spec c offset.byte).2 hff
      exact ⟨0, c.length, rfl, Nat.zero_le _, hple, Nat.le_refl _,
        Or.inl rfl, fun i _ hi2 => hnone1 i hi2, hnone2, Or.inl rfl⟩

/-- C2: for registered content and an in-bounds offset, the resolved
location's line is exactly the slice between the byte after the nearest
`\n` strictly before the position (0 if none) and the nearest `\n` at or
after it (end of content if none); the line number is 1 plus the number of
`\n` strictly before the position, and the column number is 1 plus the
byte distance from the line start (both 1-based, byte-counted). -/
theorem C2_line_column_resolution (m : SourceMap) (offset : Offset) (c : List Nat)
    (loc : ContextErrorLocation)
    (hc : m.content offset.source_index = some c)
    (hb : is_char_boundary c offset.byte = true)
    (hloc : m.context_error_location offset = some loc) :
    ∃ s e : Nat,
      s ≤ offset.byte ∧ offset.byte ≤ e ∧ e ≤ c.length ∧
      (s = 0 ∨ c.get? (s - 1) = some 10) ∧
      (∀ i, s ≤ i → i < offset.byte → c.get? i ≠ some 10) ∧
      (∀ i, offset.byte ≤ i → i < e → c.get? i ≠ some 10) ∧
      (e = c.length ∨ c.get? e = some 10) ∧
      loc.line = (c.drop s).take (e - s) ∧
      loc.line_number = 1 + (c.take offset.byte).count 10 ∧
      loc.column_number = 1 + (offset.byte - s) := by
  obtain ⟨s, e, hls, h1, h2, h3, h4, h5, h6, h7⟩ := line_span_spec m offset c hc hb
  unfold SourceMap.context_error_location at hloc
  rw [hls, hc] at hloc
  simp only at hloc
  have hloc' := Option.some.inj hloc
  subst hloc'
  refine ⟨s, e, h1, h2, h3, h4, h5, h6, h7, ?_, ?_, ?_⟩
  · show List.take (s + (e - s) - s) (List.drop s c) = (c.drop s).take (e - s)
    congr 1
    omega
  · show (splitByte 10 (c.take offset.byte)).length = 1 + (c.take offset.byte).count 10
    rw [splitByte_length]
    omega
  · rfl

/-- C2 witness: for the registered content `abc\ndef\nghi` and the offset
at byte 6 (the `e`... the `d` of line two per the specification example),
the resolved location is line 2, column 3 with stored line text `def`,
and the general characterization applies at it. -/
theorem C2_witness :
    exampleMap.context_error_location { source_index := exampleIdx, byte := 6 }
      = some { line_number := 2, column_number := 3, line := bytes "def" } ∧
    ∃ s e : Nat,
      s ≤ 6 ∧ 6 ≤ e ∧ e ≤ (bytes "abc\ndef\nghi").length ∧
      (s = 0 ∨ (bytes "abc\ndef\nghi").get? (s - 1) = some 10) ∧
      (∀ i, s ≤ i → i < 6 → (bytes "abc\ndef\nghi").get? i ≠ some 10) ∧
      (∀ i, 6 ≤ i → i < e → (bytes "abc\ndef\nghi").get? i ≠ some 10) ∧
      (e = (bytes "abc\ndef\nghi").length ∨ (bytes "abc\ndef\nghi").get? e = some 10) ∧
      (ContextErrorLocation.mk 2 3 (bytes "def")).line
        = ((bytes "abc\ndef\nghi").drop s).take (e - s) ∧
      (ContextErrorLocation.mk 2 3 (bytes "def")).line_number
        = 1 + ((bytes "abc\ndef\nghi").take 6).count 10 ∧
      (ContextErrorLocation.mk 2 3 (bytes "def")).column_number = 1 + (6 - s) :=
  ⟨by decide,
   C2_line_column_resolution exampleMap { source_index := exampleIdx, byte := 6 }
     (bytes "abc\ndef\nghi") (ContextErrorLocation.mk 2 3 (bytes "def"))
     (by decide) (by decide) (by decide)⟩

/-- C3: with a secondary (context) location present, the rendered block is
the header line, then -- exactly when the secondary line number is strictly
below the primary's -- the secondary source line, followed by the elision
marker line exactly when the two line numbers are not adjacent; then
always the primary source line and the pointer line.  In particular a
secondary location at or after the primary line is not shown at all. -/
theorem C3_secondary_line_policy (o : ContextErrorOrigin) (ctx : ContextErrorLocation)
    (ls : List (List Nat)) (hctx : o.context = some ctx) (hr : o.render = some ls) :
    ls = o.headerLine ::
      ((if ctx.line_number < o.location.line_number then
          numberedLine (count_digits o.location.line_number) ctx.line_number ctx.line ::
            (if ctx.line_number + 1 ≠ o.location.line_number then
              [elisionLine (count_digits o.location.line_number)]
            else [])
        else []) ++
       [numberedLine (count_digits o.location.line_number) o.location.line_number
          o.location.line,
        o.pointerLine (count_digits o.location.line_number)]) := by
  unfold ContextErrorOrigin.render at hr
  simp only [hctx] at hr
  by_cases hbd : is_char_boundary o.location.line o.location.column_number = true
  · rw [if_pos hbd] at hr
    exact (Option.some.inj hr).symm
  · rw [if_neg hbd] at hr
    cases hr

/-- C3 witness: the concrete origin with primary line 3 and secondary line
1 renders the secondary line before the primary and, the lines being
non-adjacent, the elision marker between them. -/
theorem C3_witness :
    c3Origin.render.getD [] = c3Origin.headerLine ::
      ((if (1 : Nat) < c3Origin.location.line_number then
          numberedLine (count_digits c3Origin.location.line_number) 1 (bytes "abc") ::
            (if (1 : Nat) + 1 ≠ c3Origin.location.line_number then
              [elisionLine (count_digits c3Origin.location.line_number)]
            else [])
        else []) ++
       [numberedLine (count_digits c3Origin.location.line_number)
          c3Origin.location.line_number c3Origin.location.line,
        c3Origin.pointerLine (count_digits c3Origin.location.line_number)]) :=
  C3_secondary_line_policy c3Origin
    { line_number := 1, column_number := 1, line := bytes "abc" }
    (c3Origin.render.getD []) rfl (by decide)

end SrcCtx
